import Mathlib

/-!
Shallow embedding of the schema-diff engine of `pkg/core/diff.go`
(package `core` of bishnuag/graphql-inspector), together with the data
model of `pkg/core/types.go` as far as `DiffSchemas` reads it.

Modelling conventions, stated once:

* Go `nil` pointers become `Option`; `DiffSchemas(old, new *Schema, …)`
  becomes a function on `Option Schema`.
* graphql-go type values (`graphql.Type`) form pointer graphs; the
  embedding uses the inductive tree `GType`.  `reflect.DeepEqual` on two
  type values (the source's `areTypesEqual`) becomes structural equality
  `beqGType`.  Cyclic type graphs are outside the tree fragment modelled
  here; none of the verified properties depends on them.
* Go maps (`schema.TypeMap()`, `graphql.FieldDefinitionMap`, the argument
  maps built inside `compareFieldArguments`) become association lists whose
  list order stands for Go's (randomized) map iteration order.  Lookups
  (`m[k]`) become `List.lookup` / `find?` by name.  A `for k, v := range m`
  loop that appends becomes a `flatMap` over the association list.
* `fmt.Sprintf` becomes string interpolation; Go's bytewise `<` on strings
  becomes the codepoint-lexicographic `strLt` (identical on ASCII, and
  UTF-8 bytewise order equals codepoint order in general).
* `sort.Slice` (Go ≥ 1.19: pdqsort, which runs plain insertion sort on
  slices shorter than 12 elements) becomes `sortChanges`, the exact
  list-level rendering of that insertion sort.  Every concrete instance
  evaluated in this file is far below 12 changes, where the model is
  byte-exact; the general theorems use only that the result is a
  permutation with no adjacent inversion.
-/

/-! ## Data model (`pkg/core/types.go`) -/

/-- `type ChangeType string` of types.go; the three constants follow. -/
abbrev ChangeType := String

def ChangeTypeBreaking : ChangeType := "BREAKING"

def ChangeTypeDangerous : ChangeType := "DANGEROUS"

def ChangeTypeNonBreaking : ChangeType := "NON_BREAKING"

/-- `core.Change`.  Go field `Type` is rendered `ctype` (`Type` is not a
valid Lean field name); `Meta map[string]interface{}` holds only string
values in every emission site of diff.go and is rendered as an association
list in the emission site's literal order. -/
structure Change where
  ctype : ChangeType
  message : String
  path : String
  criticality : String
  meta : List (String × String) := []
deriving DecidableEq, Repr

/-- `graphql.EnumValueDefinition`: the parts diff.go could read. -/
structure EnumValueDef where
  name : String
  description : String := ""
  deprecationReason : String := ""
deriving DecidableEq, Repr

mutual

/-- A graphql-go type value (`graphql.Type`): the named kinds
Scalar/Object/Interface/Union/Enum/InputObject plus the wrappers List and
NonNull, as one tagged variant.  An Object carries its fields and the
interfaces it implements, mirroring `*graphql.Object`. -/
inductive GType where
  | scalar (name : String) (description : String)
  | object (name : String) (description : String) (fields : List FieldDef)
      (interfaces : List GType)
  | interface (name : String) (description : String) (fields : List FieldDef)
  | union (name : String) (description : String) (types : List GType)
  | enum (name : String) (description : String) (values : List EnumValueDef)
  | inputObject (name : String) (description : String) (fields : List InputFieldDef)
  | list (ofType : GType)
  | nonNull (ofType : GType)

/-- `graphql.FieldDefinition`: Name, Description, Type (rendered `ftype`),
Args, DeprecationReason. -/
inductive FieldDef where
  | mk (name : String) (description : String) (ftype : GType) (args : List ArgDef)
      (deprecationReason : String)

/-- `graphql.Argument`: Name, Description, Type (rendered `atype`),
DefaultValue (present or not; diff.go never reads the value itself). -/
inductive ArgDef where
  | mk (name : String) (description : String) (atype : GType) (defaultValue : Option String)

/-- `graphql.InputObjectField`: Name, Description, Type, DefaultValue. -/
inductive InputFieldDef where
  | mk (name : String) (description : String) (ftype : GType) (defaultValue : Option String)

end

def FieldDef.name : FieldDef → String
  | .mk n _ _ _ _ => n

def FieldDef.description : FieldDef → String
  | .mk _ d _ _ _ => d

def FieldDef.ftype : FieldDef → GType
  | .mk _ _ t _ _ => t

def FieldDef.args : FieldDef → List ArgDef
  | .mk _ _ _ a _ => a

def ArgDef.name : ArgDef → String
  | .mk n _ _ _ => n

def ArgDef.atype : ArgDef → GType
  | .mk _ _ t _ => t

def ArgDef.defaultValue : ArgDef → Option String
  | .mk _ _ _ v => v

mutual

/-- Structural equality of type trees: the embedding of
`reflect.DeepEqual` on graphql-go type values (diff.go `areTypesEqual`). -/
def beqGType : GType → GType → Bool
  | .scalar n d, .scalar n' d' => n == n' && d == d'
  | .object n d fs is, .object n' d' fs' is' =>
      n == n' && d == d' && beqFieldList fs fs' && beqGTypeList is is'
  | .interface n d fs, .interface n' d' fs' => n == n' && d == d' && beqFieldList fs fs'
  | .union n d ts, .union n' d' ts' => n == n' && d == d' && beqGTypeList ts ts'
  | .enum n d vs, .enum n' d' vs' => n == n' && d == d' && vs == vs'
  | .inputObject n d fs, .inputObject n' d' fs' => n == n' && d == d' && beqInputFieldList fs fs'
  | .list t, .list t' => beqGType t t'
  | .nonNull t, .nonNull t' => beqGType t t'
  | _, _ => false
termination_by structural x => x

def beqGTypeList : List GType → List GType → Bool
  | [], [] => true
  | t :: ts, t' :: ts' => beqGType t t' && beqGTypeList ts ts'
  | _, _ => false
termination_by structural x => x

def beqFieldDef : FieldDef → FieldDef → Bool
  | .mk n d t as dr, .mk n' d' t' as' dr' =>
      n == n' && d == d' && beqGType t t' && beqArgList as as' && dr == dr'
termination_by structural x => x

def beqFieldList : List FieldDef → List FieldDef → Bool
  | [], [] => true
  | f :: fs, f' :: fs' => beqFieldDef f f' && beqFieldList fs fs'
  | _, _ => false
termination_by structural x => x

def beqArgDef : ArgDef → ArgDef → Bool
  | .mk n d t dv, .mk n' d' t' dv' => n == n' && d == d' && beqGType t t' && dv == dv'
termination_by structural x => x

def beqArgList : List ArgDef → List ArgDef → Bool
  | [], [] => true
  | a :: as, a' :: as' => beqArgDef a a' && beqArgList as as'
  | _, _ => false
termination_by structural x => x

def beqInputFieldDef : InputFieldDef → InputFieldDef → Bool
  | .mk n d t dv, .mk n' d' t' dv' => n == n' && d == d' && beqGType t t' && dv == dv'
termination_by structural x => x

def beqInputFieldList : List InputFieldDef → List InputFieldDef → Bool
  | [], [] => true
  | f :: fs, f' :: fs' => beqInputFieldDef f f' && beqInputFieldList fs fs'
  | _, _ => false
termination_by structural x => x

end

/-- `graphql.Schema` as `DiffSchemas` reads it: `TypeMap()` (name-indexed
types; list order = map iteration order), the three root operation types,
and the directive names (`compareDirectives` never reads them). -/
structure GraphQLSchema where
  typeMap : List (String × GType)
  queryType : Option GType := none
  mutationType : Option GType := none
  subscriptionType : Option GType := none
  directives : List String := []

/-- `core.Schema` of types.go.  The `Timestamp time.Time` field carries
real time and is never read by the comparator; it is omitted. -/
structure Schema where
  schema : GraphQLSchema
  sdl : String := ""
  hash : String := ""
  source : String := ""

/-- `core.DiffOptions` of types.go.  The Lean default values render the Go
zero value `&DiffOptions{}`. -/
structure DiffOptions where
  ignoreDescriptions : Bool := false
  ignoreDirectives : Bool := false
  customRules : List String := []
deriving DecidableEq, Repr

/-! ## Helper functions of diff.go (lines 330-400) -/

def getTypeKind : GType → String
  | .object .. => "OBJECT"
  | .interface .. => "INTERFACE"
  | .union .. => "UNION"
  | .enum .. => "ENUM"
  | .inputObject .. => "INPUT_OBJECT"
  | .scalar .. => "SCALAR"
  | .list _ => "LIST"
  | .nonNull _ => "NON_NULL"

def getTypeString : GType → String
  | .nonNull t => getTypeString t ++ "!"
  | .list t => "[" ++ getTypeString t ++ "]"
  | .object n .. => n
  | .scalar n .. => n
  | .enum n .. => n
  | .interface n .. => n
  | .union n .. => n
  | .inputObject n .. => n

/-- diff.go line 378: `reflect.DeepEqual(oldType, newType)`. -/
def areTypesEqual (oldType newType : GType) : Bool :=
  beqGType oldType newType

/-- diff.go lines 382-395. -/
def isTypeWidening : GType → GType → Bool
  | .nonNull oldInner, .nonNull newInner => isTypeWidening oldInner newInner
  | .nonNull oldInner, newType => areTypesEqual oldInner newType
  | _, _ => false

/-- diff.go lines 397-400. -/
def isRequiredType : GType → Bool
  | .nonNull _ => true
  | _ => false

/-! ## Change constructors

The Go code builds each `Change` literal at its emission site; the
builders below are those literals, named so theorems can refer to them. -/

/-- diff.go lines 58-67. -/
def typeRemovedChange (name : String) (kind : String) : Change :=
  { ctype := ChangeTypeBreaking
    message := s!"Type '{name}' was removed"
    path := name
    criticality := "HIGH"
    meta := [("typeName", name), ("typeKind", kind)] }

/-- diff.go lines 74-83. -/
def typeAddedChange (name : String) (kind : String) : Change :=
  { ctype := ChangeTypeNonBreaking
    message := s!"Type '{name}' was added"
    path := name
    criticality := "LOW"
    meta := [("typeName", name), ("typeKind", kind)] }

/-- diff.go lines 104-114. -/
def typeKindChangedChange (typeName oldKind newKind : String) : Change :=
  { ctype := ChangeTypeBreaking
    message := s!"Type '{typeName}' changed from {oldKind} to {newKind}"
    path := typeName
    criticality := "HIGH"
    meta := [("typeName", typeName), ("oldKind", oldKind), ("newKind", newKind)] }

/-- diff.go lines 155-160. -/
def typeDescriptionChange (typeName : String) : Change :=
  { ctype := ChangeTypeNonBreaking
    message := s!"Description for type '{typeName}' changed"
    path := typeName
    criticality := "LOW" }

/-- diff.go lines 181-190. -/
def fieldRemovedChange (typeName fieldName : String) : Change :=
  { ctype := ChangeTypeBreaking
    message := s!"Field '{typeName}.{fieldName}' was removed"
    path := s!"{typeName}.{fieldName}"
    criticality := "HIGH"
    meta := [("typeName", typeName), ("fieldName", fieldName)] }

/-- diff.go lines 197-206. -/
def fieldAddedChange (typeName fieldName : String) : Change :=
  { ctype := ChangeTypeNonBreaking
    message := s!"Field '{typeName}.{fieldName}' was added"
    path := s!"{typeName}.{fieldName}"
    criticality := "LOW"
    meta := [("typeName", typeName), ("fieldName", fieldName)] }

/-- diff.go lines 226-247: type change of a field, severity downgraded to
DANGEROUS when `isTypeWidening` holds. -/
def fieldTypeChangedChange (typeName fieldName : String) (oldT newT : GType) : Change :=
  let widening := isTypeWidening oldT newT
  let oldStr := getTypeString oldT
  let newStr := getTypeString newT
  { ctype := if widening then ChangeTypeDangerous else ChangeTypeBreaking
    message := s!"Field '{typeName}.{fieldName}' changed type from {oldStr} to {newStr}"
    path := s!"{typeName}.{fieldName}"
    criticality := if widening then "MEDIUM" else "HIGH"
    meta := [("typeName", typeName), ("fieldName", fieldName),
             ("oldType", oldStr), ("newType", newStr)] }

/-- diff.go lines 252-257. -/
def fieldDescriptionChange (typeName fieldName : String) : Change :=
  { ctype := ChangeTypeNonBreaking
    message := s!"Field '{typeName}.{fieldName}' description changed"
    path := s!"{typeName}.{fieldName}"
    criticality := "LOW" }

/-- diff.go lines 286-296. -/
def argumentRemovedChange (typeName fieldName argName : String) : Change :=
  { ctype := ChangeTypeBreaking
    message := s!"Argument '{argName}' was removed from field '{typeName}.{fieldName}'"
    path := s!"{typeName}.{fieldName}({argName}:)"
    criticality := "HIGH"
    meta := [("typeName", typeName), ("fieldName", fieldName), ("argName", argName)] }

/-- diff.go lines 301-324: an added argument is BREAKING exactly when
`isRequiredType` holds of its type; the default value is never consulted. -/
def argumentAddedChange (typeName fieldName : String) (newArg : ArgDef) : Change :=
  let required := isRequiredType newArg.atype
  { ctype := if required then ChangeTypeBreaking else ChangeTypeNonBreaking
    message := s!"Argument '{newArg.name}' was added to field '{typeName}.{fieldName}'"
    path := s!"{typeName}.{fieldName}({newArg.name}:)"
    criticality := if required then "HIGH" else "LOW"
    meta := [("typeName", typeName), ("fieldName", fieldName),
             ("argName", newArg.name), ("argType", getTypeString newArg.atype)] }

/-! ## The comparators (diff.go lines 48-441) -/

def lookupField (fields : List FieldDef) (name : String) : Option FieldDef :=
  fields.find? (fun f => f.name == name)

def lookupArg (args : List ArgDef) (name : String) : Option ArgDef :=
  args.find? (fun a => a.name == name)

/-- diff.go lines 268-328.  Go builds `oldArgMap`/`newArgMap` from the two
slices and ranges over the maps; we range over the slices themselves (the
same multiset of changes when argument names are unique, which the graphql
type system guarantees). -/
def compareFieldArguments (typeName fieldName : String) (oldArgs newArgs : List ArgDef)
    (_options : DiffOptions) : List Change :=
  let removed := oldArgs.flatMap (fun arg =>
    if (lookupArg newArgs arg.name).isNone then
      [argumentRemovedChange typeName fieldName arg.name]
    else [])
  let added := newArgs.flatMap (fun arg =>
    if (lookupArg oldArgs arg.name).isNone then
      [argumentAddedChange typeName fieldName arg]
    else [])
  removed ++ added

/-- diff.go lines 222-265. -/
def compareField (typeName fieldName : String) (oldField newField : FieldDef)
    (options : DiffOptions) : List Change :=
  let typeChanges :=
    if !areTypesEqual oldField.ftype newField.ftype then
      [fieldTypeChangedChange typeName fieldName oldField.ftype newField.ftype]
    else []
  let descrChanges :=
    if !options.ignoreDescriptions && oldField.description != newField.description then
      [fieldDescriptionChange typeName fieldName]
    else []
  typeChanges ++ descrChanges
    ++ compareFieldArguments typeName fieldName oldField.args newField.args options

/-- diff.go lines 175-219: removed fields, then added fields, then the
fields present on both sides. -/
def compareFields (typeName : String) (oldFields newFields : List FieldDef)
    (options : DiffOptions) : List Change :=
  let removed := oldFields.flatMap (fun f =>
    if (lookupField newFields f.name).isNone then [fieldRemovedChange typeName f.name]
    else [])
  let added := newFields.flatMap (fun f =>
    if (lookupField oldFields f.name).isNone then [fieldAddedChange typeName f.name]
    else [])
  let modified := oldFields.flatMap (fun f =>
    match lookupField newFields f.name with
    | some newField => compareField typeName f.name f newField options
    | none => [])
  removed ++ added ++ modified

/-- diff.go lines 438-441: placeholder, `TODO: Implement interface
implementation comparison`. -/
def compareImplementedInterfaces (_typeName : String) (_oldInterfaces _newInterfaces : List GType)
    (_options : DiffOptions) : List Change :=
  []

/-- diff.go lines 150-172.  Go receives the two `*graphql.Object` after
the type switch in `compareType`; the non-object fallthrough here renders
the impossible failed type assertion. -/
def compareObjectType (typeName : String) (oldType newType : GType)
    (options : DiffOptions) : List Change :=
  match oldType, newType with
  | .object _ oldDescr oldFields oldInterfaces, .object _ newDescr newFields newInterfaces =>
    let descrChanges :=
      if !options.ignoreDescriptions && oldDescr != newDescr then
        [typeDescriptionChange typeName]
      else []
    descrChanges
      ++ compareFields typeName oldFields newFields options
      ++ compareImplementedInterfaces typeName oldInterfaces newInterfaces options
  | _, _ => []

/-- diff.go lines 403-406: placeholder, `TODO: Implement interface
comparison` — an interface pair produces no changes. -/
def compareInterfaceType (_typeName : String) (_oldType _newType : GType)
    (_options : DiffOptions) : List Change :=
  []

/-- diff.go lines 408-411: placeholder. -/
def compareUnionType (_typeName : String) (_oldType _newType : GType)
    (_options : DiffOptions) : List Change :=
  []

/-- diff.go lines 413-416: placeholder, `TODO: Implement enum comparison`
— an enum pair produces no changes. -/
def compareEnumType (_typeName : String) (_oldType _newType : GType)
    (_options : DiffOptions) : List Change :=
  []

/-- diff.go lines 418-421: placeholder. -/
def compareInputObjectType (_typeName : String) (_oldType _newType : GType)
    (_options : DiffOptions) : List Change :=
  []

/-- diff.go lines 423-426: placeholder. -/
def compareScalarType (_typeName : String) (_oldType _newType : GType)
    (_options : DiffOptions) : List Change :=
  []

/-- diff.go lines 98-147: kind check, then dispatch by kind.  The Go type
switch with its `if ok` type assertions is rendered by the pair match. -/
def compareType (typeName : String) (oldType newType : GType)
    (options : DiffOptions) : List Change :=
  if getTypeKind oldType != getTypeKind newType then
    [typeKindChangedChange typeName (getTypeKind oldType) (getTypeKind newType)]
  else
    match oldType, newType with
    | .object .., .object .. => compareObjectType typeName oldType newType options
    | .interface .., .interface .. => compareInterfaceType typeName oldType newType options
    | .union .., .union .. => compareUnionType typeName oldType newType options
    | .enum .., .enum .. => compareEnumType typeName oldType newType options
    | .inputObject .., .inputObject .. => compareInputObjectType typeName oldType newType options
    | .scalar .., .scalar .. => compareScalarType typeName oldType newType options
    | _, _ => []

/-- diff.go lines 49-96: removed types, added types, then the types
present in both schemas. -/
def compareTypes (oldSchema newSchema : GraphQLSchema) (options : DiffOptions) : List Change :=
  let oldTypes := oldSchema.typeMap
  let newTypes := newSchema.typeMap
  let removed := oldTypes.flatMap (fun p =>
    if (newTypes.lookup p.1).isNone then [typeRemovedChange p.1 (getTypeKind p.2)]
    else [])
  let added := newTypes.flatMap (fun p =>
    if (oldTypes.lookup p.1).isNone then [typeAddedChange p.1 (getTypeKind p.2)]
    else [])
  let modified := oldTypes.flatMap (fun p =>
    match newTypes.lookup p.1 with
    | some newType => compareType p.1 p.2 newType options
    | none => [])
  removed ++ added ++ modified

/-- diff.go lines 428-431: placeholder. -/
def compareDirectives (_oldSchema _newSchema : GraphQLSchema)
    (_options : DiffOptions) : List Change :=
  []

/-- diff.go lines 433-436: placeholder, `TODO: Implement schema definition
comparison` — the root operation types are never compared. -/
def compareSchemaDefinition (_oldSchema _newSchema : GraphQLSchema)
    (_options : DiffOptions) : List Change :=
  []

/-! ## The sort (diff.go lines 37-43) -/

/-- Bytewise string order, as Go's `<` on strings (codepoint order on the
decoded text, which coincides with UTF-8 byte order). -/
def charListLt : List Char → List Char → Bool
  | [], [] => false
  | [], _ :: _ => true
  | _ :: _, [] => false
  | c :: cs, d :: ds =>
    if c.toNat < d.toNat then true
    else if d.toNat < c.toNat then false
    else charListLt cs ds

def strLt (a b : String) : Bool :=
  charListLt a.data b.data

/-- The `sort.Slice` comparator of diff.go lines 38-43: a BREAKING change
sorts before a change of any other Type; changes of equal Type sort by
path.  A DANGEROUS and a NON_BREAKING change are mutually non-less. -/
def changeLess (a b : Change) : Bool :=
  if a.ctype != b.ctype then a.ctype == ChangeTypeBreaking
  else strLt a.path b.path

/-- One step of Go's insertion sort: `x` bubbles left from the end of the
sorted prefix while `changeLess x previous`; the prefix is carried
reversed (head = last element). -/
def sortInsert (x : Change) : List Change → List Change
  | [] => [x]
  | y :: ys => if changeLess x y then y :: sortInsert x ys else x :: y :: ys

/-- `sort.Slice(changes, less)` of diff.go lines 38-43, rendered as the
insertion sort Go runs on short slices (see the header note). -/
def sortChanges (l : List Change) : List Change :=
  (l.foldl (fun acc c => sortInsert c acc) []).reverse

/-! ## The orchestrator (diff.go lines 11-46) -/

/-- diff.go lines 21-35: the change list before sorting. -/
def unsortedChanges (oldSchema newSchema : GraphQLSchema) (options : DiffOptions) : List Change :=
  let changes := compareTypes oldSchema newSchema options
  let changes := changes ++
    (if !options.ignoreDirectives then compareDirectives oldSchema newSchema options else [])
  changes ++ compareSchemaDefinition oldSchema newSchema options

/-- `DiffSchemas` of diff.go lines 12-46: nil checks, nil options treated
as the zero value, compare, then sort.  (A non-nil `core.Schema` wrapping
a nil `graphql.Schema` would panic inside `TypeMap()`; that pointer level
is not modelled.) -/
def DiffSchemas (oldSchema newSchema : Option Schema) (options : Option DiffOptions) :
    Except String (List Change) :=
  match oldSchema, newSchema with
  | some o, some n =>
    let opts := options.getD {}
    Except.ok (sortChanges (unsortedChanges o.schema n.schema opts))
  | _, _ => Except.error "both schemas must be provided"

/-! ## Specification-side definitions and well-formedness

`specLeChange`/`sortedBySeverityPath` are *not* translated from the
source: they are modelled from the spec's words ("primary key severity
rank (BREAKING < DANGEROUS < SAFE, i.e., most severe first), secondary
key the Change's path (lexicographic)"), to be compared against the
code's comparator. -/

/-- Modelled from the spec: BREAKING ranks before DANGEROUS before SAFE. -/
def severityRank (t : ChangeType) : Nat :=
  if t = ChangeTypeBreaking then 0 else if t = ChangeTypeDangerous then 1 else 2

/-- Modelled from the spec: the total order the spec claims for the final
sequence, severity rank first, path lexicographic second. -/
def specLeChange (a b : Change) : Bool :=
  decide (severityRank a.ctype < severityRank b.ctype)
    || (severityRank a.ctype == severityRank b.ctype
        && (strLt a.path b.path || a.path == b.path))

/-- Modelled from the spec: the list is sorted by `specLeChange`. -/
def sortedBySeverityPath : List Change → Bool
  | [] => true
  | [_] => true
  | a :: b :: rest => specLeChange a b && sortedBySeverityPath (b :: rest)

/-- The field names of an Object type (the keys of its
`FieldDefinitionMap`); `[]` for every other kind. -/
def typeFieldNames : GType → List String
  | .object _ _ fs _ => fs.map FieldDef.name
  | _ => []

/-- The Go map invariants of a schema the embedding's association lists
cannot enforce by construction: type names are unique, and each object
type's field names are unique. -/
def WellFormedSchema (s : Schema) : Prop :=
  (s.schema.typeMap.map Prod.fst).Nodup ∧
    ∀ p ∈ s.schema.typeMap, (typeFieldNames p.2).Nodup

/-- The diff reports type `name` as removed: the removal Change record
for `name` (with some kind) occurs in the sequence. -/
def reportsTypeRemoved (cs : List Change) (name : String) : Prop :=
  ∃ kind, typeRemovedChange name kind ∈ cs

/-- The diff reports type `name` as added. -/
def reportsTypeAdded (cs : List Change) (name : String) : Prop :=
  ∃ kind, typeAddedChange name kind ∈ cs

/-! ## Concrete input schemas for the individual claims -/

def strType : GType := .scalar "String" ""

def nnStrType : GType := .nonNull strType

def intType : GType := .scalar "Int" ""

/-- `type T { a: String }`. -/
def tNullableSchema : Schema :=
  { schema := { typeMap := [("T", .object "T" "" [.mk "a" "" strType [] ""] [])] } }

/-- `type T { a: String! }`. -/
def tNonNullSchema : Schema :=
  { schema := { typeMap := [("T", .object "T" "" [.mk "a" "" nnStrType [] ""] [])] } }

/-- Old side for the sort counterexample: `type A { x: String! }` and
`type B { }`, with the map iterated A-first. -/
def sortOldSchemaA : Schema :=
  { schema := { typeMap :=
      [("A", .object "A" "" [.mk "x" "" nnStrType [] ""] []),
       ("B", .object "B" "" [] [])] } }

/-- The same old schema with the opposite map iteration order. -/
def sortOldSchemaB : Schema :=
  { schema := { typeMap :=
      [("B", .object "B" "" [] []),
       ("A", .object "A" "" [.mk "x" "" nnStrType [] ""] [])] } }

/-- New side for the sort counterexample: `A.x` loosened to `String`
(a DANGEROUS change) and field `B.y` added (a SAFE change). -/
def sortNewSchema : Schema :=
  { schema := { typeMap :=
      [("A", .object "A" "" [.mk "x" "" strType [] ""] []),
       ("B", .object "B" "" [.mk "y" "" strType [] ""] [])] } }

/-- A schema whose only type holds a field referencing a type name,
`Missing`, that is absent from the type map: a dangling reference. -/
def danglingSchema : Schema :=
  { schema := { typeMap :=
      [("T", .object "T" "" [.mk "f" "" (.scalar "Missing" "") [] ""] [])] } }

/-- `interface I { f: String }`. -/
def ifaceOldSchema : Schema :=
  { schema := { typeMap := [("I", .interface "I" "" [.mk "f" "" strType [] ""])] } }

/-- `interface I { }`: the field `f` is removed. -/
def ifaceNewSchema : Schema :=
  { schema := { typeMap := [("I", .interface "I" "" [])] } }

/-- `enum Color { RED GREEN }`. -/
def enumOldSchema : Schema :=
  { schema := { typeMap :=
      [("Color", .enum "Color" "" [{ name := "RED" }, { name := "GREEN" }])] } }

/-- `enum Color { GREEN }`: the value `RED` is removed. -/
def enumNewSchema : Schema :=
  { schema := { typeMap := [("Color", .enum "Color" "" [{ name := "GREEN" }])] } }

def queryRootType : GType := .object "Query" "" [.mk "hello" "" strType [] ""] []

def queryRootTypeV2 : GType := .object "QueryV2" "" [.mk "hello" "" strType [] ""] []

/-- Both root-type candidates are in the map; the query root is `Query`. -/
def rootsOldSchema : Schema :=
  { schema := { typeMap := [("Query", queryRootType), ("QueryV2", queryRootTypeV2)]
                queryType := some queryRootType } }

/-- The identical type map, but the query root changed to `QueryV2`. -/
def rootsNewSchema : Schema :=
  { schema := { typeMap := [("Query", queryRootType), ("QueryV2", queryRootTypeV2)]
                queryType := some queryRootTypeV2 } }

/-- `limit: Int! = 10`: NonNull type AND a default value present. -/
def limitArg : ArgDef := .mk "limit" "" (.nonNull intType) (some "10")

/-- `type T { f: String }`: the field has no arguments. -/
def argOldSchema : Schema :=
  { schema := { typeMap := [("T", .object "T" "" [.mk "f" "" strType [] ""] [])] } }

/-- `type T { f(limit: Int! = 10): String }`: the argument was added. -/
def argNewSchema : Schema :=
  { schema := { typeMap := [("T", .object "T" "" [.mk "f" "" strType [limitArg] ""] [])] } }

/-- Witness pair for symmetry: `A` has a type `T`, `B` has none. -/
def symWitSchemaA : Schema :=
  { schema := { typeMap := [("T", .object "T" "" [] [])] } }

def symWitSchemaB : Schema :=
  { schema := { typeMap := [] } }

/-! ## Reflexivity of structural type equality -/

mutual

theorem beqGType_refl : ∀ t : GType, beqGType t t = true
  | .scalar n d => by simp [beqGType]
  | .object n d fs is => by
      simp [beqGType, beqFieldList_refl fs, beqGTypeList_refl is]
  | .interface n d fs => by simp [beqGType, beqFieldList_refl fs]
  | .union n d ts => by simp [beqGType, beqGTypeList_refl ts]
  | .enum n d vs => by simp [beqGType]
  | .inputObject n d fs => by simp [beqGType, beqInputFieldList_refl fs]
  | .list t => by simp [beqGType, beqGType_refl t]
  | .nonNull t => by simp [beqGType, beqGType_refl t]

theorem beqGTypeList_refl : ∀ ts : List GType, beqGTypeList ts ts = true
  | [] => by simp [beqGTypeList]
  | t :: ts => by simp [beqGTypeList, beqGType_refl t, beqGTypeList_refl ts]

theorem beqFieldDef_refl : ∀ f : FieldDef, beqFieldDef f f = true
  | .mk n d t as dr => by simp [beqFieldDef, beqGType_refl t, beqArgList_refl as]

theorem beqFieldList_refl : ∀ fs : List FieldDef, beqFieldList fs fs = true
  | [] => by simp [beqFieldList]
  | f :: fs => by simp [beqFieldList, beqFieldDef_refl f, beqFieldList_refl fs]

theorem beqArgDef_refl : ∀ a : ArgDef, beqArgDef a a = true
  | .mk n d t dv => by simp [beqArgDef, beqGType_refl t]

theorem beqArgList_refl : ∀ as : List ArgDef, beqArgList as as = true
  | [] => by simp [beqArgList]
  | a :: as => by simp [beqArgList, beqArgDef_refl a, beqArgList_refl as]

theorem beqInputFieldDef_refl : ∀ f : InputFieldDef, beqInputFieldDef f f = true
  | .mk n d t dv => by simp [beqInputFieldDef, beqGType_refl t]

theorem beqInputFieldList_refl : ∀ fs : List InputFieldDef, beqInputFieldList fs fs = true
  | [] => by simp [beqInputFieldList]
  | f :: fs => by simp [beqInputFieldList, beqInputFieldDef_refl f, beqInputFieldList_refl fs]

end

theorem areTypesEqual_self (t : GType) : areTypesEqual t t = true :=
  beqGType_refl t

/-! ## Association-list lookup lemmas -/

theorem assoc_lookup_isSome {β : Type} {l : List (String × β)} {n : String} {t : β}
    (h : (n, t) ∈ l) : (l.lookup n).isSome = true := by
  induction l with
  | nil => cases h
  | cons p ps ih =>
    obtain ⟨k, v⟩ := p
    by_cases hk : n = k
    · have hbk : (n == k) = true := by simp [hk]
      simp only [List.lookup, hbk, Option.isSome_some]
    · have hbk : (n == k) = false := by simp [hk]
      rcases List.mem_cons.mp h with h1 | h2
      · cases h1; simp at hk
      · simp only [List.lookup, hbk]
        exact ih h2

theorem assoc_lookup_nodup {β : Type} {l : List (String × β)}
    (hnd : (l.map Prod.fst).Nodup) {n : String} {t : β} (h : (n, t) ∈ l) :
    l.lookup n = some t := by
  induction l with
  | nil => cases h
  | cons p ps ih =>
    obtain ⟨k, v⟩ := p
    rcases List.mem_cons.mp h with h1 | h2
    · cases h1
      have hbk : (n == n) = true := by simp
      simp only [List.lookup, hbk]
    · rw [List.map_cons] at hnd
      have hnd' : k ∉ ps.map Prod.fst ∧ (ps.map Prod.fst).Nodup := List.nodup_cons.mp hnd
      have hk : n ≠ k := by
        intro he
        subst he
        exact hnd'.1 (List.mem_map_of_mem Prod.fst h2)
      have hbk : (n == k) = false := by simp [hk]
      simp only [List.lookup, hbk]
      exact ih hnd'.2 h2

theorem lookupField_isSome_of_mem {fs : List FieldDef} {f : FieldDef} (h : f ∈ fs) :
    (lookupField fs f.name).isSome = true := by
  induction fs with
  | nil => cases h
  | cons g gs ih =>
    by_cases hg : g.name == f.name
    · simp [lookupField, List.find?, hg]
    · rcases List.mem_cons.mp h with h1 | h2
      · subst h1; simp at hg
      · simpa [lookupField, List.find?, hg] using ih h2

theorem lookupField_nodup {fs : List FieldDef} (hnd : (fs.map FieldDef.name).Nodup)
    {f : FieldDef} (h : f ∈ fs) : lookupField fs f.name = some f := by
  induction fs with
  | nil => cases h
  | cons g gs ih =>
    rcases List.mem_cons.mp h with h1 | h2
    · subst h1; simp [lookupField, List.find?]
    · have hg : ¬(g.name == f.name) = true := by
        simp only [beq_iff_eq]
        intro he
        exact (List.nodup_cons.mp (by simpa using hnd)).1
          (he ▸ List.mem_map_of_mem FieldDef.name h2)
      simpa [lookupField, List.find?, hg] using
        ih (List.nodup_cons.mp (by simpa using hnd)).2 h2

theorem lookupArg_isSome_of_mem {as : List ArgDef} {a : ArgDef} (h : a ∈ as) :
    (lookupArg as a.name).isSome = true := by
  induction as with
  | nil => cases h
  | cons g gs ih =>
    by_cases hg : g.name == a.name
    · simp [lookupArg, List.find?, hg]
    · rcases List.mem_cons.mp h with h1 | h2
      · subst h1; simp at hg
      · simpa [lookupArg, List.find?, hg] using ih h2

/-! ## Properties of the sort -/

theorem sortInsert_perm (x : Change) (l : List Change) : (sortInsert x l).Perm (x :: l) := by
  induction l with
  | nil => simp [sortInsert]
  | cons y ys ih =>
    simp only [sortInsert]
    split
    · exact (ih.cons y).trans (List.Perm.swap x y ys)
    · exact List.Perm.refl _

theorem sortFoldl_perm (l : List Change) :
    ∀ acc, (l.foldl (fun a c => sortInsert c a) acc).Perm (l.reverse ++ acc) := by
  induction l with
  | nil => intro acc; simp
  | cons x xs ih =>
    intro acc
    simp only [List.foldl_cons, List.reverse_cons]
    refine ((ih (sortInsert x acc)).trans ?_)
    calc (xs.reverse ++ sortInsert x acc).Perm (xs.reverse ++ (x :: acc)) :=
        (sortInsert_perm x acc).append_left _
    _ = (xs.reverse ++ [x]) ++ acc := by simp

theorem sortChanges_perm (l : List Change) : (sortChanges l).Perm l := by
  unfold sortChanges
  refine (List.reverse_perm _).trans ((sortFoldl_perm l []).trans ?_)
  simp only [List.append_nil]
  exact List.reverse_perm l

theorem mem_sortChanges {c : Change} {l : List Change} : c ∈ sortChanges l ↔ c ∈ l :=
  (sortChanges_perm l).mem_iff

theorem charListLt_asymm : ∀ a b : List Char, charListLt a b = true → charListLt b a = false
  | [], [], h => by simp [charListLt] at h
  | [], _ :: _, _ => by simp [charListLt]
  | _ :: _, [], h => by simp [charListLt] at h
  | c :: cs, d :: ds, h => by
    by_cases h1 : c.toNat < d.toNat
    · have h2 : ¬d.toNat < c.toNat := Nat.lt_asymm h1
      simp [charListLt, h1, h2]
    · by_cases h2 : d.toNat < c.toNat
      · simp [charListLt, h1, h2] at h
      · have h3 : charListLt cs ds = true := by simpa [charListLt, h1, h2] using h
        simpa [charListLt, h1, h2] using charListLt_asymm cs ds h3

theorem strLt_asymm {a b : String} (h : strLt a b = true) : strLt b a = false :=
  charListLt_asymm a.data b.data h

theorem changeLess_asymm {a b : Change} (h : changeLess a b = true) : changeLess b a = false := by
  unfold changeLess at h ⊢
  by_cases hc : a.ctype = b.ctype
  · simp only [hc, bne_self_eq_false, Bool.false_eq_true, if_false] at h ⊢
    exact strLt_asymm h
  · have hb : (a.ctype != b.ctype) = true := by simpa [bne] using hc
    rw [if_pos hb] at h
    have ha : a.ctype = ChangeTypeBreaking := by simpa using h
    have hb' : (b.ctype != a.ctype) = true := by simpa [bne] using (Ne.symm hc)
    rw [if_pos hb']
    rw [beq_eq_false_iff_ne]
    intro hbb
    exact hc (by rw [ha, hbb])

theorem sortInsert_chain (x : Change) (l : List Change)
    (h : List.Chain' (fun a b => changeLess a b = false) l) :
    List.Chain' (fun a b => changeLess a b = false) (sortInsert x l) ∧
      ∀ w : Change, changeLess w x = false → (∀ z ∈ l.head?, changeLess w z = false) →
        List.Chain' (fun a b => changeLess a b = false) (w :: sortInsert x l) := by
  induction l with
  | nil =>
    refine ⟨by simp [sortInsert], ?_⟩
    intro w hw _
    simp [sortInsert, List.chain'_cons, hw]
  | cons y ys ih =>
    have hys : List.Chain' (fun a b => changeLess a b = false) ys := h.tail
    obtain ⟨ihc, ihw⟩ := ih hys
    by_cases hxy : changeLess x y = true
    · have hrw : sortInsert x (y :: ys) = y :: sortInsert x ys := by
        simp [sortInsert, hxy]
      have hyx : changeLess y x = false := changeLess_asymm hxy
      have hyhead : ∀ z ∈ ys.head?, changeLess y z = false := by
        intro z hz
        cases ys with
        | nil => simp at hz
        | cons z' zs' =>
          simp only [List.head?_cons, Option.mem_def, Option.some.injEq] at hz
          subst hz
          exact (List.chain'_cons.mp h).1
      have hmain : List.Chain' (fun a b => changeLess a b = false) (y :: sortInsert x ys) :=
        ihw y hyx hyhead
      refine ⟨by rw [hrw]; exact hmain, ?_⟩
      intro w hw hwhead
      rw [hrw]
      refine List.chain'_cons.mpr ⟨?_, hmain⟩
      exact hwhead y (by simp)
    · have hxy' : changeLess x y = false := by
        cases hxe : changeLess x y
        · rfl
        · exact absurd hxe hxy
      have hrw : sortInsert x (y :: ys) = x :: y :: ys := by
        simp [sortInsert, hxy']
      have hmain : List.Chain' (fun a b => changeLess a b = false) (x :: y :: ys) :=
        List.chain'_cons.mpr ⟨hxy', h⟩
      refine ⟨by rw [hrw]; exact hmain, ?_⟩
      intro w hw _
      rw [hrw]
      exact List.chain'_cons.mpr ⟨hw, hmain⟩

theorem sortFoldl_chain (l : List Change) :
    ∀ acc, List.Chain' (fun a b => changeLess a b = false) acc →
      List.Chain' (fun a b => changeLess a b = false)
        (l.foldl (fun a c => sortInsert c a) acc) := by
  induction l with
  | nil => intro acc hacc; simpa using hacc
  | cons x xs ih =>
    intro acc hacc
    simp only [List.foldl_cons]
    exact ih _ (sortInsert_chain x acc hacc).1

/-- The output of the code's sort has no adjacent inversion: no element is
`changeLess` than its immediate predecessor. -/
theorem sortChanges_chain (l : List Change) :
    List.Chain' (fun a b => changeLess b a = false) (sortChanges l) := by
  unfold sortChanges
  rw [List.chain'_reverse]
  exact sortFoldl_chain l [] (by simp)

/-! ## Comparing a schema with itself -/

theorem compareFieldArguments_self (tn fn : String) (as : List ArgDef) (opts : DiffOptions) :
    compareFieldArguments tn fn as as opts = [] := by
  unfold compareFieldArguments
  have hz : ∀ a ∈ as, (lookupArg as a.name).isNone = false := by
    intro a ha
    have hs := lookupArg_isSome_of_mem ha
    cases hl : lookupArg as a.name with
    | none => rw [hl] at hs; simp at hs
    | some _ => simp
  have h1 : (as.flatMap (fun arg =>
      if (lookupArg as arg.name).isNone then [argumentRemovedChange tn fn arg.name]
      else [])) = [] := by
    rw [List.flatMap_eq_nil_iff]
    intro a ha
    simp [hz a ha]
  have h2 : (as.flatMap (fun arg =>
      if (lookupArg as arg.name).isNone then [argumentAddedChange tn fn arg]
      else [])) = [] := by
    rw [List.flatMap_eq_nil_iff]
    intro a ha
    simp [hz a ha]
  simp [h1, h2]

theorem compareField_self (tn fn : String) (f : FieldDef) (opts : DiffOptions) :
    compareField tn fn f f opts = [] := by
  unfold compareField
  simp [areTypesEqual_self, compareFieldArguments_self, bne_self_eq_false]

theorem compareFields_self (tn : String) (fs : List FieldDef) (opts : DiffOptions)
    (hnd : (fs.map FieldDef.name).Nodup) : compareFields tn fs fs opts = [] := by
  unfold compareFields
  have hz : ∀ f ∈ fs, (lookupField fs f.name).isNone = false := by
    intro f hf
    have hs := lookupField_isSome_of_mem hf
    cases hl : lookupField fs f.name with
    | none => rw [hl] at hs; simp at hs
    | some _ => simp
  have h1 : (fs.flatMap (fun f =>
      if (lookupField fs f.name).isNone then [fieldRemovedChange tn f.name] else [])) = [] := by
    rw [List.flatMap_eq_nil_iff]
    intro f hf
    simp [hz f hf]
  have h2 : (fs.flatMap (fun f =>
      if (lookupField fs f.name).isNone then [fieldAddedChange tn f.name] else [])) = [] := by
    rw [List.flatMap_eq_nil_iff]
    intro f hf
    simp [hz f hf]
  have h3 : (fs.flatMap (fun f =>
      match lookupField fs f.name with
      | some newField => compareField tn f.name f newField opts
      | none => [])) = [] := by
    rw [List.flatMap_eq_nil_iff]
    intro f hf
    rw [lookupField_nodup hnd hf]
    exact compareField_self tn f.name f opts
  simp [h1, h2, h3]

theorem compareObjectType_self (tn : String) (t : GType) (opts : DiffOptions)
    (hnd : (typeFieldNames t).Nodup) : compareObjectType tn t t opts = [] := by
  cases t with
  | object n d fs is =>
    have hn : (fs.map FieldDef.name).Nodup := by simpa [typeFieldNames] using hnd
    simp [compareObjectType, bne_self_eq_false, compareFields_self tn fs opts hn,
      compareImplementedInterfaces]
  | scalar n d => rfl
  | interface n d fs => rfl
  | union n d ts => rfl
  | enum n d vs => rfl
  | inputObject n d fs => rfl
  | list t => rfl
  | nonNull t => rfl

theorem compareType_self (n : String) (t : GType) (opts : DiffOptions)
    (hnd : (typeFieldNames t).Nodup) : compareType n t t opts = [] := by
  cases t with
  | object nn d fs is =>
    have h := compareObjectType_self n (GType.object nn d fs is) opts hnd
    simpa [compareType, bne_self_eq_false] using h
  | scalar nn d => simp [compareType, bne_self_eq_false, compareScalarType]
  | interface nn d fs => simp [compareType, bne_self_eq_false, compareInterfaceType]
  | union nn d ts => simp [compareType, bne_self_eq_false, compareUnionType]
  | enum nn d vs => simp [compareType, bne_self_eq_false, compareEnumType]
  | inputObject nn d fs => simp [compareType, bne_self_eq_false, compareInputObjectType]
  | list t => simp [compareType, bne_self_eq_false]
  | nonNull t => simp [compareType, bne_self_eq_false]

theorem compareTypes_self (g : GraphQLSchema) (opts : DiffOptions)
    (h1 : (g.typeMap.map Prod.fst).Nodup)
    (h2 : ∀ p ∈ g.typeMap, (typeFieldNames p.2).Nodup) :
    compareTypes g g opts = [] := by
  unfold compareTypes
  have hz : ∀ p ∈ g.typeMap, (g.typeMap.lookup p.1).isNone = false := by
    intro p hp
    have hs : (g.typeMap.lookup p.1).isSome = true :=
      assoc_lookup_isSome (t := p.2) (by simpa using hp)
    cases hl : g.typeMap.lookup p.1 with
    | none => rw [hl] at hs; simp at hs
    | some _ => simp
  have ha : (g.typeMap.flatMap (fun p =>
      if (g.typeMap.lookup p.1).isNone then [typeRemovedChange p.1 (getTypeKind p.2)]
      else [])) = [] := by
    rw [List.flatMap_eq_nil_iff]
    intro p hp
    simp [hz p hp]
  have hb : (g.typeMap.flatMap (fun p =>
      if (g.typeMap.lookup p.1).isNone then [typeAddedChange p.1 (getTypeKind p.2)]
      else [])) = [] := by
    rw [List.flatMap_eq_nil_iff]
    intro p hp
    simp [hz p hp]
  have hc : (g.typeMap.flatMap (fun p =>
      match g.typeMap.lookup p.1 with
      | some newType => compareType p.1 p.2 newType opts
      | none => [])) = [] := by
    rw [List.flatMap_eq_nil_iff]
    intro p hp
    rw [assoc_lookup_nodup h1 (t := p.2) (by simpa using hp)]
    exact compareType_self p.1 p.2 opts (h2 p hp)
  simp [ha, hb, hc]

/-- The directive and schema-definition comparators are placeholders, so
the pre-sort change list is the type comparison alone. -/
theorem unsortedChanges_eq (o n : GraphQLSchema) (opts : DiffOptions) :
    unsortedChanges o n opts = compareTypes o n opts := by
  simp [unsortedChanges, compareDirectives, compareSchemaDefinition]

/-! ## Only the type-level existence loops emit a Change whose metadata
keys are exactly `typeName, typeKind`; every comparator below the
type-set diff is distinguishable by its metadata shape. -/

theorem compareFieldArguments_meta {tn fn : String} {oa na : List ArgDef}
    {opts : DiffOptions} {c : Change} (h : c ∈ compareFieldArguments tn fn oa na opts) :
    c.meta.map Prod.fst ≠ ["typeName", "typeKind"] := by
  unfold compareFieldArguments at h
  rcases List.mem_append.mp h with h1 | h1
  · obtain ⟨arg, _, hin⟩ := List.mem_flatMap.mp h1
    split at hin
    · have hc : c = argumentRemovedChange tn fn arg.name := by simpa using hin
      subst hc
      simp only [argumentRemovedChange, List.map_cons, List.map_nil]
      decide
    · cases hin
  · obtain ⟨arg, _, hin⟩ := List.mem_flatMap.mp h1
    split at hin
    · have hc : c = argumentAddedChange tn fn arg := by simpa using hin
      subst hc
      simp only [argumentAddedChange, List.map_cons, List.map_nil]
      decide
    · cases hin

theorem compareField_meta {tn fn : String} {f nf : FieldDef} {opts : DiffOptions}
    {c : Change} (h : c ∈ compareField tn fn f nf opts) :
    c.meta.map Prod.fst ≠ ["typeName", "typeKind"] := by
  unfold compareField at h
  rcases List.mem_append.mp h with h1 | h1
  · rcases List.mem_append.mp h1 with h2 | h2
    · split at h2
      · have hc : c = fieldTypeChangedChange tn fn f.ftype nf.ftype := by simpa using h2
        subst hc
        simp only [fieldTypeChangedChange, List.map_cons, List.map_nil]
        decide
      · cases h2
    · split at h2
      · have hc : c = fieldDescriptionChange tn fn := by simpa using h2
        subst hc
        simp only [fieldDescriptionChange, List.map_nil]
        decide
      · cases h2
  · exact compareFieldArguments_meta h1

theorem compareFields_meta {tn : String} {ofs nfs : List FieldDef} {opts : DiffOptions}
    {c : Change} (h : c ∈ compareFields tn ofs nfs opts) :
    c.meta.map Prod.fst ≠ ["typeName", "typeKind"] := by
  unfold compareFields at h
  rcases List.mem_append.mp h with h1 | h1
  · rcases List.mem_append.mp h1 with h2 | h2
    · obtain ⟨f, _, hin⟩ := List.mem_flatMap.mp h2
      split at hin
      · have hc : c = fieldRemovedChange tn f.name := by simpa using hin
        subst hc
        simp only [fieldRemovedChange, List.map_cons, List.map_nil]
        decide
      · cases hin
    · obtain ⟨f, _, hin⟩ := List.mem_flatMap.mp h2
      split at hin
      · have hc : c = fieldAddedChange tn f.name := by simpa using hin
        subst hc
        simp only [fieldAddedChange, List.map_cons, List.map_nil]
        decide
      · cases hin
  · obtain ⟨f, _, hin⟩ := List.mem_flatMap.mp h1
    split at hin
    · exact compareField_meta hin
    · cases hin

theorem compareObjectType_meta {tn : String} {t1 t2 : GType} {opts : DiffOptions}
    {c : Change} (h : c ∈ compareObjectType tn t1 t2 opts) :
    c.meta.map Prod.fst ≠ ["typeName", "typeKind"] := by
  unfold compareObjectType at h
  cases t1 with
  | object n d fs is =>
    cases t2 with
    | object n' d' fs' is' =>
      rcases List.mem_append.mp h with h1 | h1
      · rcases List.mem_append.mp h1 with h2 | h2
        · split at h2
          · have hc : c = typeDescriptionChange tn := by simpa using h2
            subst hc
            simp only [typeDescriptionChange, List.map_nil]
            decide
          · cases h2
        · exact compareFields_meta h2
      · simp [compareImplementedInterfaces] at h1
    | scalar n' d' => cases h
    | interface n' d' fs' => cases h
    | union n' d' ts' => cases h
    | enum n' d' vs' => cases h
    | inputObject n' d' fs' => cases h
    | list t' => cases h
    | nonNull t' => cases h
  | scalar n d => cases h
  | interface n d fs => cases h
  | union n d ts => cases h
  | enum n d vs => cases h
  | inputObject n d fs => cases h
  | list t => cases h
  | nonNull t => cases h

theorem compareType_meta {tn : String} {t1 t2 : GType} {opts : DiffOptions}
    {c : Change} (h : c ∈ compareType tn t1 t2 opts) :
    c.meta.map Prod.fst ≠ ["typeName", "typeKind"] := by
  unfold compareType at h
  split at h
  · have hc : c = typeKindChangedChange tn (getTypeKind t1) (getTypeKind t2) := by
      simpa using h
    subst hc
    simp only [typeKindChangedChange, List.map_cons, List.map_nil]
    decide
  · cases t1 with
    | object n d fs is =>
      cases t2 with
      | object n' d' fs' is' => exact compareObjectType_meta h
      | scalar n' d' => cases h
      | interface n' d' fs' => cases h
      | union n' d' ts' => cases h
      | enum n' d' vs' => cases h
      | inputObject n' d' fs' => cases h
      | list t' => cases h
      | nonNull t' => cases h
    | interface n d fs =>
      cases t2 <;> simp [compareInterfaceType] at h
    | union n d ts =>
      cases t2 <;> simp [compareUnionType] at h
    | enum n d vs =>
      cases t2 <;> simp [compareEnumType] at h
    | inputObject n d fs =>
      cases t2 <;> simp [compareInputObjectType] at h
    | scalar n d =>
      cases t2 <;> simp [compareScalarType] at h
    | list t =>
      cases t2 <;> cases h
    | nonNull t =>
      cases t2 <;> cases h

/-- A type-removal Change occurs in `compareTypes A B` exactly for a
binding of the old map whose name the new map lacks. -/
theorem typeRemoved_mem_compareTypes {A B : GraphQLSchema} {opts : DiffOptions}
    {T k : String} :
    typeRemovedChange T k ∈ compareTypes A B opts ↔
      ∃ t, (T, t) ∈ A.typeMap ∧ B.typeMap.lookup T = none ∧ k = getTypeKind t := by
  constructor
  · intro h
    unfold compareTypes at h
    rcases List.mem_append.mp h with h1 | h1
    · rcases List.mem_append.mp h1 with h2 | h2
      · obtain ⟨p, hp, hin⟩ := List.mem_flatMap.mp h2
        split at hin
        · have hc : typeRemovedChange T k = typeRemovedChange p.1 (getTypeKind p.2) := by
            simpa using hin
          have hT : T = p.1 := congrArg Change.path hc
          have hk : k = getTypeKind p.2 := by
            have h2 := congrArg (fun c => c.meta.map Prod.snd) hc
            have h3 : T = p.1 ∧ k = getTypeKind p.2 := by
              simpa [typeRemovedChange] using h2
            exact h3.2
          refine ⟨p.2, ?_, ?_, hk⟩
          · rw [hT]; simpa using hp
          · rename_i hcond
            rw [hT]
            exact Option.isNone_iff_eq_none.mp hcond
        · cases hin
      · obtain ⟨p, hp, hin⟩ := List.mem_flatMap.mp h2
        split at hin
        · have hc : typeRemovedChange T k = typeAddedChange p.1 (getTypeKind p.2) := by
            simpa using hin
          have := congrArg Change.ctype hc
          simp [typeRemovedChange, typeAddedChange, ChangeTypeBreaking,
            ChangeTypeNonBreaking] at this
        · cases hin
    · obtain ⟨p, hp, hin⟩ := List.mem_flatMap.mp h1
      split at hin
      · exact absurd (by simp [typeRemovedChange]) (compareType_meta hin).elim
      · cases hin
  · rintro ⟨t, hmem, hlook, rfl⟩
    unfold compareTypes
    refine List.mem_append.mpr (Or.inl (List.mem_append.mpr (Or.inl ?_)))
    refine List.mem_flatMap.mpr ⟨(T, t), hmem, ?_⟩
    simp [hlook]

/-- A type-addition Change occurs in `compareTypes A B` exactly for a
binding of the new map whose name the old map lacks. -/
theorem typeAdded_mem_compareTypes {A B : GraphQLSchema} {opts : DiffOptions}
    {T k : String} :
    typeAddedChange T k ∈ compareTypes A B opts ↔
      ∃ t, (T, t) ∈ B.typeMap ∧ A.typeMap.lookup T = none ∧ k = getTypeKind t := by
  constructor
  · intro h
    unfold compareTypes at h
    rcases List.mem_append.mp h with h1 | h1
    · rcases List.mem_append.mp h1 with h2 | h2
      · obtain ⟨p, hp, hin⟩ := List.mem_flatMap.mp h2
        split at hin
        · have hc : typeAddedChange T k = typeRemovedChange p.1 (getTypeKind p.2) := by
            simpa using hin
          have := congrArg Change.ctype hc
          simp [typeRemovedChange, typeAddedChange, ChangeTypeBreaking,
            ChangeTypeNonBreaking] at this
        · cases hin
      · obtain ⟨p, hp, hin⟩ := List.mem_flatMap.mp h2
        split at hin
        · have hc : typeAddedChange T k = typeAddedChange p.1 (getTypeKind p.2) := by
            simpa using hin
          have hT : T = p.1 := congrArg Change.path hc
          have hk : k = getTypeKind p.2 := by
            have h2 := congrArg (fun c => c.meta.map Prod.snd) hc
            have h3 : T = p.1 ∧ k = getTypeKind p.2 := by
              simpa [typeAddedChange] using h2
            exact h3.2
          refine ⟨p.2, ?_, ?_, hk⟩
          · rw [hT]; simpa using hp
          · rename_i hcond
            rw [hT]
            exact Option.isNone_iff_eq_none.mp hcond
        · cases hin
    · obtain ⟨p, hp, hin⟩ := List.mem_flatMap.mp h1
      split at hin
      · exact absurd (by simp [typeAddedChange]) (compareType_meta hin).elim
      · cases hin
  · rintro ⟨t, hmem, hlook, rfl⟩
    unfold compareTypes
    refine List.mem_append.mpr (Or.inl (List.mem_append.mpr (Or.inr ?_)))
    refine List.mem_flatMap.mpr ⟨(T, t), hmem, ?_⟩
    simp [hlook]

/-! ## Lifting membership from the argument comparator up to DiffSchemas -/

theorem argumentAdded_mem_compareFieldArguments {tn fn : String} {oa na : List ArgDef}
    {opts : DiffOptions} {arg : ArgDef} (h1 : arg ∈ na) (h2 : lookupArg oa arg.name = none) :
    argumentAddedChange tn fn arg ∈ compareFieldArguments tn fn oa na opts := by
  unfold compareFieldArguments
  refine List.mem_append.mpr (Or.inr ?_)
  exact List.mem_flatMap.mpr ⟨arg, h1, by simp [h2]⟩

theorem argumentRemoved_mem_compareFieldArguments {tn fn : String} {oa na : List ArgDef}
    {opts : DiffOptions} {arg : ArgDef} (h1 : arg ∈ oa) (h2 : lookupArg na arg.name = none) :
    argumentRemovedChange tn fn arg.name ∈ compareFieldArguments tn fn oa na opts := by
  unfold compareFieldArguments
  refine List.mem_append.mpr (Or.inl ?_)
  exact List.mem_flatMap.mpr ⟨arg, h1, by simp [h2]⟩

theorem compareFieldArguments_sub_compareField {tn fn : String} {f nf : FieldDef}
    {opts : DiffOptions} {c : Change}
    (h : c ∈ compareFieldArguments tn fn f.args nf.args opts) :
    c ∈ compareField tn fn f nf opts := by
  unfold compareField
  exact List.mem_append.mpr (Or.inr h)

theorem compareField_sub_compareFields {tn : String} {ofs nfs : List FieldDef}
    {opts : DiffOptions} {f nf : FieldDef} (h1 : f ∈ ofs)
    (h2 : lookupField nfs f.name = some nf) {c : Change}
    (h : c ∈ compareField tn f.name f nf opts) : c ∈ compareFields tn ofs nfs opts := by
  unfold compareFields
  refine List.mem_append.mpr (Or.inr ?_)
  refine List.mem_flatMap.mpr ⟨f, h1, ?_⟩
  simpa [h2] using h

theorem compareFields_sub_compareObjectType {tn : String} {opts : DiffOptions}
    {onm od : String} {ofs : List FieldDef} {ois : List GType}
    {nnm nd : String} {nfs : List FieldDef} {nis : List GType} {c : Change}
    (h : c ∈ compareFields tn ofs nfs opts) :
    c ∈ compareObjectType tn (.object onm od ofs ois) (.object nnm nd nfs nis) opts := by
  unfold compareObjectType
  exact List.mem_append.mpr (Or.inl (List.mem_append.mpr (Or.inr h)))

/-- On two object types the kind test passes and `compareType` is exactly
`compareObjectType`. -/
theorem compareType_object_eq {tn : String} {opts : DiffOptions}
    {onm od : String} {ofs : List FieldDef} {ois : List GType}
    {nnm nd : String} {nfs : List FieldDef} {nis : List GType} :
    compareType tn (.object onm od ofs ois) (.object nnm nd nfs nis) opts =
      compareObjectType tn (.object onm od ofs ois) (.object nnm nd nfs nis) opts := by
  simp [compareType, getTypeKind]

theorem compareType_sub_compareTypes {A B : GraphQLSchema} {opts : DiffOptions}
    {T : String} {t nt : GType} (h1 : (T, t) ∈ A.typeMap)
    (h2 : B.typeMap.lookup T = some nt) {c : Change}
    (h : c ∈ compareType T t nt opts) : c ∈ compareTypes A B opts := by
  unfold compareTypes
  refine List.mem_append.mpr (Or.inr ?_)
  refine List.mem_flatMap.mpr ⟨(T, t), h1, ?_⟩
  simpa [h2] using h

/-- For non-nil schemas `DiffSchemas` returns exactly the sorted pre-sort
list, so membership in the type comparison lifts to the result. -/
theorem compareTypes_sub_diffSchemas {o n : Schema} {opts : DiffOptions} {cs : List Change}
    (h : DiffSchemas (some o) (some n) (some opts) = Except.ok cs) {c : Change}
    (hc : c ∈ compareTypes o.schema n.schema opts) : c ∈ cs := by
  have e : cs = sortChanges (unsortedChanges o.schema n.schema opts) := by
    have h2 : Except.ok (ε := String) (sortChanges (unsortedChanges o.schema n.schema opts)) =
        Except.ok cs := by simpa [DiffSchemas] using h
    exact (Except.ok.inj h2).symm
  subst e
  rw [mem_sortChanges, unsortedChanges_eq]
  exact hc

/-! ## The claims -/

/-- C1 (counterexample): the claim says the returned sequence is sorted
with severity rank as primary key (BREAKING < DANGEROUS < SAFE) and path
as secondary key, reproducibly across map iteration orders.  Here two
schemas equal as maps (their association lists are permutations) yield two
different output sequences, and one of them is not sorted in the claimed
order (a SAFE change precedes a DANGEROUS one): the comparator never
orders DANGEROUS against NON_BREAKING. -/
theorem c1_sort_counterexample :
    sortOldSchemaB.schema.typeMap.Perm sortOldSchemaA.schema.typeMap
    ∧ DiffSchemas (some sortOldSchemaA) (some sortNewSchema) none =
        Except.ok [fieldTypeChangedChange "A" "x" nnStrType strType, fieldAddedChange "B" "y"]
    ∧ DiffSchemas (some sortOldSchemaB) (some sortNewSchema) none =
        Except.ok [fieldAddedChange "B" "y", fieldTypeChangedChange "A" "x" nnStrType strType]
    ∧ [fieldTypeChangedChange "A" "x" nnStrType strType, fieldAddedChange "B" "y"] ≠
        [fieldAddedChange "B" "y", fieldTypeChangedChange "A" "x" nnStrType strType]
    ∧ sortedBySeverityPath
        [fieldAddedChange "B" "y", fieldTypeChangedChange "A" "x" nnStrType strType] = false := by
  refine ⟨?_, rfl, rfl, by decide, by decide⟩
  exact List.Perm.swap _ _ _

/-- C1 (amended): the returned sequence is a permutation of the generated
changes in which no change is `changeLess` than its immediate predecessor;
BREAKING changes therefore come first and equal-severity neighbours are
path-ordered, but the relative order of DANGEROUS and SAFE changes is not
determined by the comparator, so the sequence depends on map iteration
order. -/
theorem c1_sort_amended (o n : Schema) (opts : DiffOptions) (cs : List Change)
    (h : DiffSchemas (some o) (some n) (some opts) = Except.ok cs) :
    cs.Perm (unsortedChanges o.schema n.schema opts)
    ∧ List.Chain' (fun a b => changeLess b a = false) cs := by
  have e : cs = sortChanges (unsortedChanges o.schema n.schema opts) := by
    have h2 : Except.ok (ε := String) (sortChanges (unsortedChanges o.schema n.schema opts)) =
        Except.ok cs := by simpa [DiffSchemas] using h
    exact (Except.ok.inj h2).symm
  subst e
  exact ⟨sortChanges_perm _, sortChanges_chain _⟩

theorem c1_sort_amended_witness :
    ([fieldTypeChangedChange "A" "x" nnStrType strType, fieldAddedChange "B" "y"]).Perm
      (unsortedChanges sortOldSchemaA.schema sortNewSchema.schema {})
    ∧ List.Chain' (fun a b => changeLess b a = false)
      [fieldTypeChangedChange "A" "x" nnStrType strType, fieldAddedChange "B" "y"] :=
  c1_sort_amended sortOldSchemaA sortNewSchema {} _ rfl

/-- C2: the claim says a schema with a dangling type reference makes the
comparison return a data-integrity error and no Change list.  The code
performs no reference-resolution check at all: on a schema whose field
references the absent type name `Missing` it returns `ok []` — the
malformed input is classified as "no change". -/
theorem c2_dangling_no_error :
    danglingSchema.schema.typeMap.lookup "Missing" = none
    ∧ DiffSchemas (some danglingSchema) (some danglingSchema) none = Except.ok [] :=
  ⟨rfl, rfl⟩

/-- C3: the claim says field removal yields a BREAKING change for
interface types as well as object types.  `compareInterfaceType` is a
TODO placeholder returning no changes: removing field `f` from interface
`I` produces an empty diff, with no BREAKING change for `I.f`. -/
theorem c3_interface_field_removal_silent :
    DiffSchemas (some ifaceOldSchema) (some ifaceNewSchema) none = Except.ok [] :=
  rfl

/-- C4: the claim says removing enum value `RED` from
`enum Color { RED GREEN }` yields a BREAKING change.  `compareEnumType`
is a TODO placeholder returning no changes: the diff is empty. -/
theorem c4_enum_value_removal_silent :
    DiffSchemas (some enumOldSchema) (some enumNewSchema) none = Except.ok [] :=
  rfl

/-- C5: the claim says a changed root operation type yields a BREAKING
change.  `compareSchemaDefinition` is a TODO placeholder returning no
changes and `DiffSchemas` never reads the root operation types: two
schemas with identical type maps whose query roots differ produce an
empty diff. -/
theorem c5_root_operation_change_silent :
    rootsOldSchema.schema.queryType.map getTypeString = some "Query"
    ∧ rootsNewSchema.schema.queryType.map getTypeString = some "QueryV2"
    ∧ DiffSchemas (some rootsOldSchema) (some rootsNewSchema) none = Except.ok [] :=
  ⟨rfl, rfl, rfl⟩

/-- C6 (counterexample): the claim says adding an optional argument —
nullable, *or having a default value* — yields a SAFE change.  The code
classifies by `isRequiredType` alone and never reads the default value:
the added argument `limit: Int! = 10` has a default value, yet the single
resulting Change is BREAKING, not SAFE. -/
theorem c6_required_default_counterexample :
    DiffSchemas (some argOldSchema) (some argNewSchema) none =
      Except.ok [argumentAddedChange "T" "f" limitArg]
    ∧ limitArg.defaultValue = some "10"
    ∧ (argumentAddedChange "T" "f" limitArg).ctype = ChangeTypeBreaking
    ∧ (argumentAddedChange "T" "f" limitArg).ctype ≠ ChangeTypeNonBreaking :=
  ⟨rfl, rfl, rfl, by decide⟩

/-- C6 (amended): for a field present in both versions of an object type
present in both schemas, an added argument yields a Change that is
BREAKING exactly when its type is NonNull (the default value is ignored)
and SAFE otherwise, and a removed argument always yields a BREAKING
change; both appear in the DiffSchemas result. -/
theorem c6_argument_rules_amended (o n : Schema) (opts : DiffOptions) (cs : List Change)
    (T onm od : String) (ofs : List FieldDef) (ois : List GType)
    (nnm nd : String) (nfs : List FieldDef) (nis : List GType) (f nf : FieldDef)
    (hdiff : DiffSchemas (some o) (some n) (some opts) = Except.ok cs)
    (hT : (T, GType.object onm od ofs ois) ∈ o.schema.typeMap)
    (hT2 : n.schema.typeMap.lookup T = some (GType.object nnm nd nfs nis))
    (hf : f ∈ ofs) (hf2 : lookupField nfs f.name = some nf) :
    (∀ a ∈ nf.args, lookupArg f.args a.name = none →
        argumentAddedChange T f.name a ∈ cs)
    ∧ (∀ a ∈ f.args, lookupArg nf.args a.name = none →
        argumentRemovedChange T f.name a.name ∈ cs)
    ∧ (∀ a : ArgDef, (argumentAddedChange T f.name a).ctype =
        if isRequiredType a.atype then ChangeTypeBreaking else ChangeTypeNonBreaking)
    ∧ (∀ a : ArgDef, (argumentRemovedChange T f.name a.name).ctype = ChangeTypeBreaking) := by
  refine ⟨?_, ?_, fun a => rfl, fun a => rfl⟩
  · intro a ha hla
    apply compareTypes_sub_diffSchemas hdiff
    apply compareType_sub_compareTypes hT hT2
    rw [compareType_object_eq]
    exact compareFields_sub_compareObjectType
      (compareField_sub_compareFields hf hf2
        (compareFieldArguments_sub_compareField
          (argumentAdded_mem_compareFieldArguments ha hla)))
  · intro a ha hla
    apply compareTypes_sub_diffSchemas hdiff
    apply compareType_sub_compareTypes hT hT2
    rw [compareType_object_eq]
    exact compareFields_sub_compareObjectType
      (compareField_sub_compareFields hf hf2
        (compareFieldArguments_sub_compareField
          (argumentRemoved_mem_compareFieldArguments ha hla)))

theorem c6_argument_rules_amended_witness :
    argumentAddedChange "T" "f" limitArg ∈ [argumentAddedChange "T" "f" limitArg]
    ∧ (argumentAddedChange "T" "f" limitArg).ctype = ChangeTypeBreaking := by
  have h := c6_argument_rules_amended argOldSchema argNewSchema {}
    [argumentAddedChange "T" "f" limitArg] "T" "T" ""
    [FieldDef.mk "f" "" strType [] ""] [] "T" ""
    [FieldDef.mk "f" "" strType [limitArg] ""] []
    (FieldDef.mk "f" "" strType [] "") (FieldDef.mk "f" "" strType [limitArg] "")
    rfl (List.mem_singleton_self _) rfl (List.mem_singleton_self _) rfl
  refine ⟨h.1 limitArg (List.mem_singleton_self _) rfl, ?_⟩
  have h2 := h.2.2.1 limitArg
  simpa [limitArg, isRequiredType] using h2

/-- C7: changing field `T.a` from `String` to `String!` produces exactly
one Change, at path `T.a`, with severity BREAKING; the reverse direction
produces exactly one Change at `T.a` with severity DANGEROUS. -/
theorem c7_nullability_asymmetry :
    DiffSchemas (some tNullableSchema) (some tNonNullSchema) none =
      Except.ok [fieldTypeChangedChange "T" "a" strType nnStrType]
    ∧ (fieldTypeChangedChange "T" "a" strType nnStrType).path = "T.a"
    ∧ (fieldTypeChangedChange "T" "a" strType nnStrType).ctype = ChangeTypeBreaking
    ∧ DiffSchemas (some tNonNullSchema) (some tNullableSchema) none =
      Except.ok [fieldTypeChangedChange "T" "a" nnStrType strType]
    ∧ (fieldTypeChangedChange "T" "a" nnStrType strType).path = "T.a"
    ∧ (fieldTypeChangedChange "T" "a" nnStrType strType).ctype = ChangeTypeDangerous :=
  ⟨rfl, rfl, rfl, rfl, rfl, rfl⟩

/-- C8: comparing a schema against itself with default options yields an
empty Change sequence, for every schema satisfying the Go map invariants
(unique type names, unique field names per object). -/
theorem c8_reflexivity (S : Schema) (h : WellFormedSchema S) :
    DiffSchemas (some S) (some S) none = Except.ok [] := by
  have hct := compareTypes_self S.schema {} h.1 h.2
  simp [DiffSchemas, unsortedChanges_eq, hct, sortChanges]

theorem c8_reflexivity_witness :
    DiffSchemas (some tNullableSchema) (some tNullableSchema) none = Except.ok [] :=
  c8_reflexivity tNullableSchema ⟨by decide, by decide⟩

/-- C9: the diff of A against B reports a type T as removed if and only
if the diff of B against A reports T as added. -/
theorem c9_existence_symmetry (A B : Schema) (T : String) (csAB csBA : List Change)
    (h1 : DiffSchemas (some A) (some B) none = Except.ok csAB)
    (h2 : DiffSchemas (some B) (some A) none = Except.ok csBA) :
    reportsTypeRemoved csAB T ↔ reportsTypeAdded csBA T := by
  have e1 : csAB = sortChanges (unsortedChanges A.schema B.schema {}) := by
    have h3 : Except.ok (ε := String)
        (sortChanges (unsortedChanges A.schema B.schema ({} : DiffOptions))) =
        Except.ok csAB := by simpa [DiffSchemas] using h1
    exact (Except.ok.inj h3).symm
  have e2 : csBA = sortChanges (unsortedChanges B.schema A.schema {}) := by
    have h3 : Except.ok (ε := String)
        (sortChanges (unsortedChanges B.schema A.schema ({} : DiffOptions))) =
        Except.ok csBA := by simpa [DiffSchemas] using h2
    exact (Except.ok.inj h3).symm
  subst e1
  subst e2
  constructor
  · rintro ⟨k, hk⟩
    rw [mem_sortChanges, unsortedChanges_eq] at hk
    obtain ⟨t, hmem, hlook, rfl⟩ := typeRemoved_mem_compareTypes.mp hk
    refine ⟨getTypeKind t, ?_⟩
    rw [mem_sortChanges, unsortedChanges_eq]
    exact typeAdded_mem_compareTypes.mpr ⟨t, hmem, hlook, rfl⟩
  · rintro ⟨k, hk⟩
    rw [mem_sortChanges, unsortedChanges_eq] at hk
    obtain ⟨t, hmem, hlook, rfl⟩ := typeAdded_mem_compareTypes.mp hk
    refine ⟨getTypeKind t, ?_⟩
    rw [mem_sortChanges, unsortedChanges_eq]
    exact typeRemoved_mem_compareTypes.mpr ⟨t, hmem, hlook, rfl⟩

theorem c9_existence_symmetry_witness :
    reportsTypeRemoved [typeRemovedChange "T" "OBJECT"] "T" ↔
      reportsTypeAdded [typeAddedChange "T" "OBJECT"] "T" :=
  c9_existence_symmetry symWitSchemaA symWitSchemaB "T" _ _ rfl rfl

/-- C10: DiffSchemas returns an error exactly when one of the two schema
arguments is nil, with message "both schemas must be provided"; nil
options are treated as the default (all ignore flags false). -/
theorem c10_nil_error_iff :
    (∀ (o n : Option Schema) (opts : Option DiffOptions),
        (∃ e, DiffSchemas o n opts = Except.error e) ↔ (o = none ∨ n = none))
    ∧ (∀ (o n : Option Schema) (opts : Option DiffOptions), o = none ∨ n = none →
        DiffSchemas o n opts = Except.error "both schemas must be provided")
    ∧ (∀ a b : Schema,
        DiffSchemas (some a) (some b) none = DiffSchemas (some a) (some b) (some {})) := by
  refine ⟨?_, ?_, ?_⟩
  · intro o n opts
    cases o <;> cases n <;> simp [DiffSchemas]
  · intro o n opts h
    rcases h with rfl | rfl
    · cases n <;> rfl
    · cases o <;> rfl
  · intro a b
    rfl

theorem c10_nil_error_iff_witness :
    DiffSchemas none (some tNullableSchema) none =
      Except.error "both schemas must be provided"
    ∧ (∃ e, DiffSchemas none (some tNullableSchema) none = Except.error e)
    ∧ DiffSchemas (some tNullableSchema) (some tNullableSchema) none =
        DiffSchemas (some tNullableSchema) (some tNullableSchema) (some {}) := by
  refine ⟨?_, ?_, ?_⟩
  · exact c10_nil_error_iff.2.1 none (some tNullableSchema) none (Or.inl rfl)
  · exact (c10_nil_error_iff.1 none (some tNullableSchema) none).mpr (Or.inl rfl)
  · exact c10_nil_error_iff.2.2 tNullableSchema tNullableSchema
